import Mathlib

/-!
Shallow embedding of `Borrow_book.py`, a single-file library circulation
manager built on a fixed-length binary record store.  Byte files are
modelled as `List Nat` (each element a byte value), Python `str` values as
`List Nat` of Unicode code points, and Python `int` fields as `Nat`
(`Int` where the source subtracts).  Fallible code returns `Option` or an
explicit result inductive paired with the resulting state; a Python
function that raises before writing is modelled as returning its input
state (or `none`).
-/

set_option maxRecDepth 4000

/-! ## Fixed-length byte sizes (source: configuration constants) -/

def TITLE_LEN : Nat := 60
def AUTHOR_LEN : Nat := 40
def NAME_LEN : Nat := 60
def PHONE_LEN : Nat := 20
def ADDR_LEN : Nat := 100

/-! ## UTF-8 codec

`utf8EncodeChar` is the standard UTF-8 encoding of one code point, the model
of what Python's `str.encode("utf-8")` does per character.  `utf8DecodeIgnore`
models `bytes.decode("utf-8", errors="ignore")`: valid sequences are decoded,
bytes of an invalid or incomplete sequence are skipped (CPython skips the
maximal valid subpart of an ill-formed sequence and drops a truncated tail).
-/

def utf8EncodeChar (c : Nat) : List Nat :=
  if c < 0x80 then [c]
  else if c < 0x800 then [0xC0 + c / 0x40, 0x80 + c % 0x40]
  else if c < 0x10000 then
    [0xE0 + c / 0x1000, 0x80 + c / 0x40 % 0x40, 0x80 + c % 0x40]
  else
    [0xF0 + c / 0x40000, 0x80 + c / 0x1000 % 0x40, 0x80 + c / 0x40 % 0x40, 0x80 + c % 0x40]

def utf8Encode (s : List Nat) : List Nat :=
  (s.map utf8EncodeChar).flatten

/-- Second-byte lower bound in a three-byte sequence (0xE0 forbids overlongs). -/
def cont3Lo (b1 : Nat) : Nat := if b1 = 0xE0 then 0xA0 else 0x80

/-- Second-byte upper bound in a three-byte sequence (0xED excludes surrogates). -/
def cont3Hi (b1 : Nat) : Nat := if b1 = 0xED then 0x9F else 0xBF

/-- Second-byte lower bound in a four-byte sequence (0xF0 forbids overlongs). -/
def cont4Lo (b1 : Nat) : Nat := if b1 = 0xF0 then 0x90 else 0x80

/-- Second-byte upper bound in a four-byte sequence (0xF4 caps at U+10FFFF). -/
def cont4Hi (b1 : Nat) : Nat := if b1 = 0xF4 then 0x8F else 0xBF

/-- One step of the lossy UTF-8 decoder: decode one character (returning it
and the bytes after it), or skip the maximal subpart of an ill-formed
sequence (returning `none` and the bytes after the skipped part).  A
truncated valid sequence at the end of input is skipped entirely. -/
def utf8Step : List Nat → Option Nat × List Nat
  | [] => (none, [])
  | b1 :: r1 =>
    if b1 < 0x80 then (some b1, r1)
    else if b1 < 0xC2 then (none, r1)
    else if b1 ≤ 0xDF then
      match r1 with
      | [] => (none, [])
      | b2 :: r2 =>
        if 0x80 ≤ b2 ∧ b2 ≤ 0xBF then (some ((b1 - 0xC0) * 0x40 + (b2 - 0x80)), r2)
        else (none, r1)
    else if b1 ≤ 0xEF then
      match r1 with
      | [] => (none, [])
      | b2 :: r2 =>
        if cont3Lo b1 ≤ b2 ∧ b2 ≤ cont3Hi b1 then
          match r2 with
          | [] => (none, [])
          | b3 :: r3 =>
            if 0x80 ≤ b3 ∧ b3 ≤ 0xBF then
              (some ((b1 - 0xE0) * 0x1000 + (b2 - 0x80) * 0x40 + (b3 - 0x80)), r3)
            else (none, r2)
        else (none, r1)
    else if b1 ≤ 0xF4 then
      match r1 with
      | [] => (none, [])
      | b2 :: r2 =>
        if cont4Lo b1 ≤ b2 ∧ b2 ≤ cont4Hi b1 then
          match r2 with
          | [] => (none, [])
          | b3 :: r3 =>
            if 0x80 ≤ b3 ∧ b3 ≤ 0xBF then
              match r3 with
              | [] => (none, [])
              | b4 :: r4 =>
                if 0x80 ≤ b4 ∧ b4 ≤ 0xBF then
                  (some ((b1 - 0xF0) * 0x40000 + (b2 - 0x80) * 0x1000 + (b3 - 0x80) * 0x40
                    + (b4 - 0x80)), r4)
                else (none, r3)
            else (none, r2)
        else (none, r1)
    else (none, r1)

/-- Iterate `utf8Step` to the end of the input.  The fuel argument only
bounds the iteration count; each step consumes at least one byte, so
`l.length` is always enough fuel. -/
def utf8DecodeLoop : Nat → List Nat → List Nat
  | 0, _ => []
  | _, [] => []
  | fuel + 1, b1 :: r1 =>
    match utf8Step (b1 :: r1) with
    | (some c, rest) => c :: utf8DecodeLoop fuel rest
    | (none, rest) => utf8DecodeLoop fuel rest

def utf8DecodeIgnore (l : List Nat) : List Nat := utf8DecodeLoop l.length l

/-- A code point Python can UTF-8-encode: below U+110000 and not a surrogate. -/
def encodableChar (c : Nat) : Prop := c < 0x110000 ∧ ¬(0xD800 ≤ c ∧ c < 0xE000)

instance (c : Nat) : Decidable (encodableChar c) := by
  unfold encodableChar
  exact inferInstance

/-! ## Fixed-width string fields (source: `pack_fixed_str` / `unpack_fixed_str`) -/

/-- `pack_fixed_str`: UTF-8 encode, truncate to `len` bytes, pad with NUL bytes. -/
def pack_fixed_str (s : List Nat) (len : Nat) : List Nat :=
  let b := (utf8Encode s).take len
  b ++ List.replicate (len - b.length) 0

/-- `unpack_fixed_str`: split at the first NUL byte, decode the head lossily. -/
def unpack_fixed_str (b : List Nat) : List Nat :=
  utf8DecodeIgnore (b.takeWhile (fun x => x != 0))

/-! ## Little-endian fixed-width integers (struct codes `H` and `I`) -/

def le16 (n : Nat) : List Nat := [n % 0x100, n / 0x100 % 0x100]

def le32 (n : Nat) : List Nat :=
  [n % 0x100, n / 0x100 % 0x100, n / 0x10000 % 0x100, n / 0x1000000 % 0x100]

def le16dec (b : List Nat) : Nat := b.getD 0 0 + 0x100 * b.getD 1 0

def le32dec (b : List Nat) : Nat :=
  b.getD 0 0 + 0x100 * b.getD 1 0 + 0x10000 * b.getD 2 0 + 0x1000000 * b.getD 3 0

/-! ## Record types as the program's in-memory dictionaries

`Book`, `Member`, `Loan` mirror the dictionaries the program passes around:
string fields hold Unicode code points, numeric fields hold Python ints.
-/

structure Book where
  id : Nat
  title : List Nat
  author : List Nat
  year : Nat
  total : Nat
  available : Nat
  active : Nat
  lastModified : Nat
deriving DecidableEq

structure Member where
  id : Nat
  name : List Nat
  phone : List Nat
  addr : List Nat
  active : Nat
  lastModified : Nat
deriving DecidableEq

structure Loan where
  id : Nat
  bookId : Nat
  memberId : Nat
  borrowTs : Nat
  returnTs : Nat
  active : Nat
  lastModified : Nat
deriving DecidableEq

/-! ## Record codecs (source: `BOOK_STRUCT`, `MEMBER_STRUCT`, `LOAN_STRUCT`)

`struct.Struct("<I60s40sHHHBxI")` and friends, little endian, no alignment.
`struct.pack` raises if a numeric field exceeds its width; encoding therefore
returns `none` outside the declared widths.  Decoding mirrors
`struct.unpack` (sequential consumption of the block) followed by
`unpack_fixed_str` on each string field, as done in `list_books` /
`list_members` / `list_loans`.
-/

def BOOK_SIZE : Nat := 116
def MEMBER_SIZE : Nat := 192
def LOAN_SIZE : Nat := 28

def validBook (b : Book) : Prop :=
  b.id < 2 ^ 32 ∧ b.year < 2 ^ 16 ∧ b.total < 2 ^ 16 ∧ b.available < 2 ^ 16 ∧
    b.active < 2 ^ 8 ∧ b.lastModified < 2 ^ 32

def validMember (m : Member) : Prop :=
  m.id < 2 ^ 32 ∧ m.active < 2 ^ 8 ∧ m.lastModified < 2 ^ 32

def validLoan (l : Loan) : Prop :=
  l.id < 2 ^ 32 ∧ l.bookId < 2 ^ 32 ∧ l.memberId < 2 ^ 32 ∧ l.borrowTs < 2 ^ 32 ∧
    l.returnTs < 2 ^ 32 ∧ l.active < 2 ^ 8 ∧ l.lastModified < 2 ^ 32

instance (b : Book) : Decidable (validBook b) := by
  unfold validBook
  exact inferInstance

instance (m : Member) : Decidable (validMember m) := by
  unfold validMember
  exact inferInstance

instance (l : Loan) : Decidable (validLoan l) := by
  unfold validLoan
  exact inferInstance

def book_bytes (b : Book) : List Nat :=
  le32 b.id ++ (pack_fixed_str b.title TITLE_LEN ++ (pack_fixed_str b.author AUTHOR_LEN ++
    (le16 b.year ++ (le16 b.total ++ (le16 b.available ++
      ([b.active] ++ ([0] ++ le32 b.lastModified)))))))

def encode_book (b : Book) : Option (List Nat) :=
  if validBook b then some (book_bytes b) else none

def decode_book (bs : List Nat) : Book :=
  let r1 := bs.drop 4
  let r2 := r1.drop TITLE_LEN
  let r3 := r2.drop AUTHOR_LEN
  let r4 := r3.drop 2
  let r5 := r4.drop 2
  let r6 := r5.drop 2
  let r8 := (r6.drop 1).drop 1
  { id := le32dec (bs.take 4)
  , title := unpack_fixed_str (r1.take TITLE_LEN)
  , author := unpack_fixed_str (r2.take AUTHOR_LEN)
  , year := le16dec (r3.take 2)
  , total := le16dec (r4.take 2)
  , available := le16dec (r5.take 2)
  , active := r6.getD 0 0
  , lastModified := le32dec (r8.take 4) }

def member_bytes (m : Member) : List Nat :=
  le32 m.id ++ (pack_fixed_str m.name NAME_LEN ++ (pack_fixed_str m.phone PHONE_LEN ++
    (pack_fixed_str m.addr ADDR_LEN ++ ([m.active] ++ (List.replicate 3 0 ++
      le32 m.lastModified)))))

def encode_member (m : Member) : Option (List Nat) :=
  if validMember m then some (member_bytes m) else none

def decode_member (bs : List Nat) : Member :=
  let r1 := bs.drop 4
  let r2 := r1.drop NAME_LEN
  let r3 := r2.drop PHONE_LEN
  let r4 := r3.drop ADDR_LEN
  let r5 := (r4.drop 1).drop 3
  { id := le32dec (bs.take 4)
  , name := unpack_fixed_str (r1.take NAME_LEN)
  , phone := unpack_fixed_str (r2.take PHONE_LEN)
  , addr := unpack_fixed_str (r3.take ADDR_LEN)
  , active := r4.getD 0 0
  , lastModified := le32dec (r5.take 4) }

def loan_bytes (l : Loan) : List Nat :=
  le32 l.id ++ (le32 l.bookId ++ (le32 l.memberId ++ (le32 l.borrowTs ++
    (le32 l.returnTs ++ ([l.active] ++ (List.replicate 3 0 ++ le32 l.lastModified))))))

def encode_loan (l : Loan) : Option (List Nat) :=
  if validLoan l then some (loan_bytes l) else none

def decode_loan (bs : List Nat) : Loan :=
  let r1 := bs.drop 4
  let r2 := r1.drop 4
  let r3 := r2.drop 4
  let r4 := r3.drop 4
  let r5 := r4.drop 4
  let r6 := (r5.drop 1).drop 3
  { id := le32dec (bs.take 4)
  , bookId := le32dec (r1.take 4)
  , memberId := le32dec (r2.take 4)
  , borrowTs := le32dec (r3.take 4)
  , returnTs := le32dec (r4.take 4)
  , active := r5.getD 0 0
  , lastModified := le32dec (r6.take 4) }

/-! ## Record store (source: `read_all_records`, `write_record_at`, `get_next_id`)

A backing file is a `List Nat` of bytes.  `read_all_records` reads
`size`-byte chunks in file order and stops at the first short (or empty)
chunk, silently dropping a trailing partial record.  The fuel argument of
the loop only bounds the iteration count; each iteration consumes
`size ≥ 1` bytes, so `file.length` is always enough fuel.
-/

def read_records_loop : Nat → List Nat → Nat → List (List Nat)
  | 0, _, _ => []
  | fuel + 1, file, size =>
    if 0 < size ∧ size ≤ file.length then
      file.take size :: read_records_loop fuel (file.drop size) size
    else []

def read_all_records (file : List Nat) (size : Nat) : List (List Nat) :=
  read_records_loop file.length file size

/-- `write_record_at`: seek to `index * size` and overwrite `block.length`
bytes in place.  A seek past end-of-file zero-fills the gap. -/
def write_record_at (file : List Nat) (size index : Nat) (block : List Nat) : List Nat :=
  file.take (index * size) ++ List.replicate (index * size - file.length) 0 ++
    block ++ file.drop (index * size + block.length)

/-- The identifier field of a record block: all three layouts start with a
little-endian unsigned 32-bit id. -/
def record_id (chunk : List Nat) : Nat := le32dec (chunk.take 4)

/-- `get_next_id`: 1 on an empty file; otherwise seek to the last complete
record and return its id field + 1.  When the file is non-empty but holds
no complete record, the computed seek offset `(count - 1) * size` is
negative and Python raises; that failure is `none`. -/
def get_next_id (file : List Nat) (size : Nat) : Option Nat :=
  if file.length = 0 then some 1
  else if file.length / size = 0 then none
  else some (record_id ((file.drop ((file.length / size - 1) * size)).take size) + 1)

/-! ## Domain rows

`BookRow` / `MemberRow` mirror the raw tuples `struct.unpack` yields (string
fields still fixed-width byte blocks); `Loan` tuples contain no strings, so
the `Loan` record doubles as the row type.  The dictionaries the program
builds from rows decode the string fields (`bookRowToBook`,
`memberRowToMember`).
-/

structure BookRow where
  id : Nat
  title : List Nat
  author : List Nat
  year : Nat
  total : Nat
  available : Nat
  active : Nat
  lastModified : Nat
deriving DecidableEq

structure MemberRow where
  id : Nat
  name : List Nat
  phone : List Nat
  addr : List Nat
  active : Nat
  lastModified : Nat
deriving DecidableEq

def bookRowToBook (r : BookRow) : Book :=
  { id := r.id
  , title := unpack_fixed_str r.title
  , author := unpack_fixed_str r.author
  , year := r.year
  , total := r.total
  , available := r.available
  , active := r.active
  , lastModified := r.lastModified }

def memberRowToMember (r : MemberRow) : Member :=
  { id := r.id
  , name := unpack_fixed_str r.name
  , phone := unpack_fixed_str r.phone
  , addr := unpack_fixed_str r.addr
  , active := r.active
  , lastModified := r.lastModified }

/-- The three backing files as already-unpacked rows. -/
structure LibState where
  books : List BookRow
  members : List MemberRow
  loans : List Loan
deriving DecidableEq

/-- `list_books`: full scan, skipping inactive rows unless `show_inactive`. -/
def list_books (books : List BookRow) (show_inactive : Bool) : List BookRow :=
  books.filter (fun b => show_inactive || b.active != 0)

/-- `list_members`: full scan, skipping inactive rows unless `show_inactive`. -/
def list_members (members : List MemberRow) (show_inactive : Bool) : List MemberRow :=
  members.filter (fun m => show_inactive || m.active != 0)

/-- `list_loans`: full scan, skipping inactive rows unless `show_inactive`
(the source defaults this flag to `True`). -/
def list_loans (loans : List Loan) (show_inactive : Bool) : List Loan :=
  loans.filter (fun l => show_inactive || l.active != 0)

/-- Shared shape of `find_book_by_id` / `find_member_by_id` and the inline
loan lookup loop: scan all rows in file order (no active filter) and return
the first row whose id field matches, with its positional index. -/
def find_by_id {α : Type} (key : α → Nat) (idx : Nat) (rows : List α) (target : Nat) :
    Option (Nat × α) :=
  match rows with
  | [] => none
  | r :: rest => if key r = target then some (idx, r) else find_by_id key (idx + 1) rest target

def find_book_by_id (books : List BookRow) (bid : Nat) : Option (Nat × BookRow) :=
  find_by_id BookRow.id 0 books bid

def find_member_by_id (members : List MemberRow) (mid : Nat) : Option (Nat × MemberRow) :=
  find_by_id MemberRow.id 0 members mid

def find_loan_by_id (loans : List Loan) (lid : Nat) : Option (Nat × Loan) :=
  find_by_id Loan.id 0 loans lid

/-- `get_next_id` of a loans file written by this program, at row level:
1 on an empty file, otherwise the last record's id + 1. -/
def loans_next_id (loans : List Loan) : Nat :=
  match loans.getLast? with
  | none => 1
  | some last => last.id + 1

/-- The book write-back loop of `add_loan`: rewrite the first row whose id
matches, with `available` decremented and `last_modified` stamped; the raw
string fields of the tuple are passed through unchanged. -/
def dec_avail_first : List BookRow → Nat → Nat → List BookRow
  | [], _, _ => []
  | b :: rest, bid, now =>
    if b.id = bid then { b with available := b.available - 1, lastModified := now } :: rest
    else b :: dec_avail_first rest bid now

/-- The book write-back loop of `return_loan`: first matching row gets
`available` incremented and `last_modified` stamped. -/
def inc_avail_first : List BookRow → Nat → Nat → List BookRow
  | [], _, _ => []
  | b :: rest, bid, now =>
    if b.id = bid then { b with available := b.available + 1, lastModified := now } :: rest
    else b :: inc_avail_first rest bid now

inductive BorrowRes where
  | ok (lid : Nat)
  | noBooks
  | bookNotFound
  | notAvailable
  | noMembers
  | memberNotFound
deriving DecidableEq

def BorrowRes.isOk : BorrowRes → Bool
  | .ok _ => true
  | _ => false

/-- `add_loan` (the borrow flow), with the confirmation prompt answered
yes.  Every early `return` happens before any write, so a failing result is
paired with the unchanged state.  The numeric values packed on the success
path (ids and counters re-read from storage, the constants 0 and 1, and the
current timestamp) fit their struct widths whenever the stored file was
itself produced by `struct.pack`, so no width check is modelled here. -/
def add_loan (st : LibState) (bid mid now : Nat) : BorrowRes × LibState :=
  if (list_books st.books false).isEmpty then (.noBooks, st)
  else
    match find_book_by_id st.books bid with
    | none => (.bookNotFound, st)
    | some (_, bookRow) =>
      if bookRow.available ≤ 0 then (.notAvailable, st)
      else if (list_members st.members false).isEmpty then (.noMembers, st)
      else
        match find_member_by_id st.members mid with
        | none => (.memberNotFound, st)
        | some _ =>
          let lid := loans_next_id st.loans
          let newLoan : Loan :=
            { id := lid, bookId := bid, memberId := mid, borrowTs := now
            , returnTs := 0, active := 1, lastModified := now }
          (.ok lid,
           { books := dec_avail_first st.books bid now
           , members := st.members
           , loans := st.loans ++ [newLoan] })

/-- `update_book`, with the confirmation prompt answered yes.  A blank
title or author keeps the current value.  A blank year or total (`none`)
does not: `safe_input` with `allow_empty` returns the empty string before
its validator runs, so `int("")` then raises an uncaught ValueError and the
function dies before any write.  `none` is therefore a failure before any
write: the id did not resolve, `int("")` raised on a blank numeric field,
or `struct.pack` raised because an updated numeric field exceeds its
width (`total` and `year` are raw user input, and `available` follows
`total`). -/
def update_book (books : List BookRow) (bid : Nat)
    (new_title new_author : Option (List Nat)) (new_year new_total : Option Nat)
    (now : Nat) : Option (List BookRow) :=
  match find_book_by_id books bid with
  | none => none
  | some (idx, row) =>
    let book := bookRowToBook row
    let updated_title := new_title.getD book.title
    let updated_author := new_author.getD book.author
    match new_year, new_total with
    | some updated_year, some updated_total =>
      let updated_available :=
        (max 0 ((book.available : Int) + ((updated_total : Int) - (book.total : Int)))).toNat
      if book.id < 2 ^ 32 ∧ updated_year < 2 ^ 16 ∧ updated_total < 2 ^ 16 ∧
          updated_available < 2 ^ 16 ∧ book.active < 2 ^ 8 ∧ now < 2 ^ 32 then
        some (books.set idx
          { id := book.id
          , title := pack_fixed_str updated_title TITLE_LEN
          , author := pack_fixed_str updated_author AUTHOR_LEN
          , year := updated_year
          , total := updated_total
          , available := updated_available
          , active := book.active
          , lastModified := now })
      else none
    | _, _ => none

/-- `update_member`, with the confirmation prompt answered yes. -/
def update_member (members : List MemberRow) (mid : Nat)
    (new_name new_phone new_addr : Option (List Nat)) (now : Nat) :
    Option (List MemberRow) :=
  match find_member_by_id members mid with
  | none => none
  | some (idx, row) =>
    let mem := memberRowToMember row
    some (members.set idx
      { id := mem.id
      , name := pack_fixed_str (new_name.getD mem.name) NAME_LEN
      , phone := pack_fixed_str (new_phone.getD mem.phone) PHONE_LEN
      , addr := pack_fixed_str (new_addr.getD mem.addr) ADDR_LEN
      , active := mem.active
      , lastModified := now })

inductive ReturnRes where
  | ok
  | noOpenLoans
  | notFound
  | alreadyReturned
deriving DecidableEq

/-- `return_loan`, with the confirmation prompt answered yes.  The target
is the first loan record whose id matches; failure paths return before any
write.  On success the loan's `return_ts` and `last_modified` are stamped
in place, then the book's availability is incremented (skipped when the
book id resolves to no record). -/
def return_loan (st : LibState) (lid now : Nat) : ReturnRes × LibState :=
  if ((list_loans st.loans true).filter (fun l => l.returnTs == 0)).isEmpty then
    (.noOpenLoans, st)
  else
    match find_loan_by_id st.loans lid with
    | none => (.notFound, st)
    | some (idx, loan) =>
      if loan.returnTs ≠ 0 then (.alreadyReturned, st)
      else
        let loans2 := st.loans.set idx { loan with returnTs := now, lastModified := now }
        let books2 :=
          match find_book_by_id st.books loan.bookId with
          | none => st.books
          | some _ => inc_avail_first st.books loan.bookId now
        (.ok, { books := books2, members := st.members, loans := loans2 })

inductive DelRes where
  | ok
  | emptyLedger
  | notFound
  | alreadyDeleted
  | hasOpenLoans
deriving DecidableEq

/-- `delete_member` (soft delete).  Fails, writing nothing, when the ledger
is empty, the id does not resolve, the member is already inactive, or any
loan referencing the member is still open; otherwise rewrites the row with
`active = 0` (string fields re-packed from their decoded form). -/
def delete_member (st : LibState) (mid now : Nat) : DelRes × LibState :=
  if st.members.isEmpty then (.emptyLedger, st)
  else
    match find_member_by_id st.members mid with
    | none => (.notFound, st)
    | some (idx, row) =>
      let mem := memberRowToMember row
      if mem.active = 0 then (.alreadyDeleted, st)
      else if ¬((list_loans st.loans true).filter
          (fun l => l.memberId == mid && l.returnTs == 0)).isEmpty then
        (.hasOpenLoans, st)
      else
        (.ok,
         { books := st.books
         , members := st.members.set idx
             { id := mem.id
             , name := pack_fixed_str mem.name NAME_LEN
             , phone := pack_fixed_str mem.phone PHONE_LEN
             , addr := pack_fixed_str mem.addr ADDR_LEN
             , active := 0
             , lastModified := now }
         , loans := st.loans })

/-- `delete_book` (soft delete), with the confirmation prompt answered
yes.  Fails, writing nothing, when the ledger is empty, the id does not
resolve, the book is already inactive, or any loan referencing the book is
still open. -/
def delete_book (st : LibState) (bid now : Nat) : DelRes × LibState :=
  if st.books.isEmpty then (.emptyLedger, st)
  else
    match find_book_by_id st.books bid with
    | none => (.notFound, st)
    | some (idx, row) =>
      let book := bookRowToBook row
      if book.active = 0 then (.alreadyDeleted, st)
      else if ¬((list_loans st.loans true).filter
          (fun l => l.bookId == bid && l.returnTs == 0)).isEmpty then
        (.hasOpenLoans, st)
      else
        (.ok,
         { books := st.books.set idx
             { id := book.id
             , title := pack_fixed_str book.title TITLE_LEN
             , author := pack_fixed_str book.author AUTHOR_LEN
             , year := book.year
             , total := book.total
             , available := book.available
             , active := 0
             , lastModified := now }
         , members := st.members
         , loans := st.loans })

/-! ## Report aggregation (source: `generate_report`)

Only the borrow-history table is modelled; rendering of timestamps by
`fmt_ts` is kept symbolic (`dash` for 0, `ymd ts` for the `%Y-%m-%d` form
of `ts`), which preserves exactly which timestamp each column shows.
-/

inductive TsText where
  | dash
  | ymd (ts : Nat)
deriving DecidableEq

/-- `fmt_ts`: `-` for timestamp 0, otherwise the rendered date of `ts`. -/
def fmt_ts (ts : Nat) : TsText :=
  if ts = 0 then .dash else .ymd ts

inductive StatusText where
  | returned
  | borrowed
  | dash
deriving DecidableEq

/-- The dict comprehensions `{b["id"]: b for b in books}`: on duplicate
ids the later row wins. -/
def dict_find_book (books : List BookRow) (bid : Nat) : Option BookRow :=
  (books.filter (fun b => b.id == bid)).getLast?

def dict_find_member (members : List MemberRow) (mid : Nat) : Option MemberRow :=
  (members.filter (fun m => m.id == mid)).getLast?

/-- `book_map.get(l["book_id"], {}).get("title", "-")`. -/
def loan_title (books : List BookRow) (bid : Nat) : List Nat :=
  match dict_find_book books bid with
  | none => [45]
  | some b => unpack_fixed_str b.title

/-- Append a loan to its member's group in the insertion-ordered grouping
dict, creating the entry on first occurrence of the key. -/
def group_upsert (acc : List (Nat × List Loan)) (mid : Nat) (l : Loan) :
    List (Nat × List Loan) :=
  match acc with
  | [] => [(mid, [l])]
  | (k, ls) :: rest =>
    if k = mid then (k, ls ++ [l]) :: rest else (k, ls) :: group_upsert rest mid l

/-- The `grouped` dict of `generate_report`: loans grouped by `member_id`,
keys in first-occurrence order, each group in loan file order. -/
def group_loans (loans : List Loan) : List (Nat × List Loan) :=
  loans.foldl (fun acc l => group_upsert acc l.memberId l) []

/-- One borrow-history row as emitted per grouped member. -/
structure ReportRow where
  memberId : Option Nat
  memberName : List Nat
  memberPhone : List Nat
  titles : List Nat
  loanDate : TsText
  returnDate : TsText
  status : StatusText
deriving DecidableEq

/-- Build the row for one grouped member: the titles column joins all of
the group's titles with `"; "` and keeps the first 27 characters; the
date and status columns use only the group's first loan. -/
def mk_report_row (books : List BookRow) (members : List MemberRow)
    (mid : Nat) (ls : List Loan) : ReportRow :=
  { memberId := (dict_find_member members mid).map (fun m => m.id)
  , memberName :=
      match dict_find_member members mid with
      | none => [45]
      | some m =>
        let n := unpack_fixed_str m.name
        if n = [] then [45] else n
  , memberPhone :=
      match dict_find_member members mid with
      | none => [45]
      | some m =>
        let p := unpack_fixed_str m.phone
        if p = [] then [45] else p
  , titles := (List.intercalate [59, 32] (ls.map (fun l => loan_title books l.bookId))).take 27
  , loanDate := ((ls.map (fun l => fmt_ts l.borrowTs)).headD .dash)
  , returnDate := ((ls.map (fun l => fmt_ts l.returnTs)).headD .dash)
  , status :=
      ((ls.map (fun l => if l.returnTs ≠ 0 then StatusText.returned else .borrowed)).headD
        .dash) }

/-- The borrow-history section of the report: one row per grouped member,
in grouping order, keyed by the `member_id` the group was built from. -/
def report_rows (books : List BookRow) (members : List MemberRow) (loans : List Loan) :
    List (Nat × ReportRow) :=
  (group_loans (list_loans loans true)).map
    (fun p => (p.1, mk_report_row books members p.1 p.2))

/-! ## Concrete states used as counterexamples and witnesses -/

/-- A state where book 2 is soft-deleted yet shows one copy available and
member 2 is soft-deleted, while active book 1 and member 1 keep the borrow
flow's pick lists non-empty. -/
def c1State : LibState :=
  { books :=
      [ { id := 1, title := [], author := [], year := 2020, total := 1, available := 1
        , active := 1, lastModified := 0 }
      , { id := 2, title := [], author := [], year := 2020, total := 1, available := 1
        , active := 0, lastModified := 0 } ]
  , members :=
      [ { id := 1, name := [], phone := [], addr := [], active := 1, lastModified := 0 }
      , { id := 2, name := [], phone := [], addr := [], active := 0, lastModified := 0 } ]
  , loans := [] }

/-- A state with a single open loan (id 1) and no book or member rows. -/
def c6State : LibState :=
  { books := []
  , members := []
  , loans :=
      [ { id := 1, bookId := 1, memberId := 1, borrowTs := 3, returnTs := 0
        , active := 1, lastModified := 3 } ] }

/-- `c6State` after its loan is returned at time 5. -/
def c6State1 : LibState :=
  { books := []
  , members := []
  , loans :=
      [ { id := 1, bookId := 1, memberId := 1, borrowTs := 3, returnTs := 5
        , active := 1, lastModified := 5 } ] }

/-- A state where the only loan is open and references both the only book
and the only member. -/
def c7State : LibState :=
  { books :=
      [ { id := 1, title := [], author := [], year := 2020, total := 1, available := 0
        , active := 1, lastModified := 0 } ]
  , members :=
      [ { id := 1, name := [], phone := [], addr := [], active := 1, lastModified := 0 } ]
  , loans :=
      [ { id := 1, bookId := 1, memberId := 1, borrowTs := 3, returnTs := 0
        , active := 1, lastModified := 3 } ] }

/-- Two books with 30-character titles, both borrowed by member 1. -/
def c9State : LibState :=
  { books :=
      [ { id := 1, title := List.replicate 30 65, author := [], year := 2000, total := 1
        , available := 1, active := 1, lastModified := 0 }
      , { id := 2, title := List.replicate 30 66, author := [], year := 2000, total := 1
        , available := 1, active := 1, lastModified := 0 } ]
  , members :=
      [ { id := 1, name := [77], phone := [], addr := [], active := 1, lastModified := 0 } ]
  , loans :=
      [ { id := 1, bookId := 1, memberId := 1, borrowTs := 10, returnTs := 0, active := 1
        , lastModified := 10 }
      , { id := 2, bookId := 2, memberId := 1, borrowTs := 20, returnTs := 0, active := 1
        , lastModified := 20 } ] }

/-! ## THEOREMS -/

theorem le16_le16dec (n : Nat) (h : n < 0x10000) : le16dec (le16 n) = n := by
  simp [le16, le16dec, List.getD]
  omega

theorem le32_le32dec (n : Nat) (h : n < 0x100000000) : le32dec (le32 n) = n := by
  simp [le32, le32dec, List.getD]
  omega

theorem le16_length (n : Nat) : (le16 n).length = 2 := rfl

theorem le32_length (n : Nat) : (le32 n).length = 4 := rfl

theorem pack_fixed_str_length (s : List Nat) (len : Nat) :
    (pack_fixed_str s len).length = len := by
  simp [pack_fixed_str]

theorem utf8Step_rest_le (b : Nat) (r : List Nat) :
    (utf8Step (b :: r)).2.length ≤ r.length := by
  unfold utf8Step
  repeat' split
  all_goals simp_all
  all_goals omega

theorem utf8DecodeLoop_congr :
    ∀ (f1 f2 : Nat) (l : List Nat), l.length ≤ f1 → l.length ≤ f2 →
      utf8DecodeLoop f1 l = utf8DecodeLoop f2 l := by
  intro f1
  induction f1 with
  | zero =>
    intro f2 l h1 _
    have : l = [] := List.length_eq_zero.mp (Nat.le_zero.mp h1)
    subst this
    cases f2 <;> rfl
  | succ k ih =>
    intro f2 l h1 h2
    cases l with
    | nil => cases f2 <;> rfl
    | cons b r =>
      cases f2 with
      | zero => simp at h2
      | succ m =>
        have hrest := utf8Step_rest_le b r
        simp only [utf8DecodeLoop]
        rcases hs : utf8Step (b :: r) with ⟨c?, rest⟩
        have hr : rest.length ≤ r.length := by
          have := hrest
          rw [hs] at this
          exact this
        simp only [List.length_cons] at h1 h2
        cases c? with
        | none => exact ih m rest (by omega) (by omega)
        | some c =>
          show c :: utf8DecodeLoop k rest = c :: utf8DecodeLoop m rest
          exact congrArg _ (ih m rest (by omega) (by omega))

theorem utf8DecodeIgnore_eq_step (l : List Nat) (h : l ≠ []) :
    utf8DecodeIgnore l =
      match utf8Step l with
      | (some c, rest) => c :: utf8DecodeIgnore rest
      | (none, rest) => utf8DecodeIgnore rest := by
  cases l with
  | nil => exact absurd rfl h
  | cons b r =>
    show utf8DecodeLoop (r.length + 1) (b :: r) = _
    simp only [utf8DecodeLoop]
    rcases hs : utf8Step (b :: r) with ⟨c?, rest⟩
    have hr : rest.length ≤ r.length := by
      have := utf8Step_rest_le b r
      rw [hs] at this
      exact this
    cases c? with
    | none => exact utf8DecodeLoop_congr r.length rest.length rest hr le_rfl
    | some c =>
      simp only [List.cons.injEq, true_and]
      exact utf8DecodeLoop_congr r.length rest.length rest hr le_rfl

theorem read_records_loop_eq (fuel : Nat) :
    ∀ (file : List Nat) (size : Nat), 0 < size → file.length ≤ fuel →
      read_records_loop fuel file size =
        (List.range (file.length / size)).map (fun i => (file.drop (i * size)).take size) := by
  induction fuel with
  | zero =>
    intro file size hsz hf
    have : file = [] := List.length_eq_zero.mp (Nat.le_zero.mp hf)
    subst this
    simp [read_records_loop]
  | succ k ih =>
    intro file size hsz hf
    simp only [read_records_loop]
    by_cases hcond : 0 < size ∧ size ≤ file.length
    · rw [if_pos hcond]
      have hdroplen : (file.drop size).length = file.length - size := by
        simp [List.length_drop]
      rw [ih (file.drop size) size hsz (by omega)]
      rw [Nat.div_eq_sub_div hsz hcond.2]
      rw [List.range_succ_eq_map]
      simp only [List.map_cons, List.map_map, hdroplen]
      congr 1
      · rw [Nat.zero_mul, List.drop_zero]
      · refine congrArg (fun f => List.map f (List.range ((file.length - size) / size))) ?_
        funext i
        simp only [Function.comp]
        rw [List.drop_drop]
        refine congrArg (fun n => (file.drop n).take size) ?_
        rw [Nat.succ_mul, Nat.add_comm]
    · rw [if_neg hcond]
      have hlt : file.length < size := by omega
      rw [Nat.div_eq_of_lt hlt]
      simp

theorem read_all_records_eq (file : List Nat) (size : Nat) (hsz : 0 < size) :
    read_all_records file size =
      (List.range (file.length / size)).map (fun i => (file.drop (i * size)).take size) :=
  read_records_loop_eq file.length file size hsz le_rfl

theorem range_map_getLastD {α : Type} (f : Nat → α) (m : Nat) (d : α) :
    ((List.range (m + 1)).map f).getLastD d = f m := by
  rw [List.range_succ]
  simp

/-- Claim C5: `get_next_id` returns 1 on an empty backing file; on a file
holding at least one complete record it returns the identifier field of the
last complete record (the last chunk a scan yields) plus 1, reading only
that record. -/
theorem next_id_from_last_record (size : Nat) (file : List Nat) (hsz : 0 < size) :
    get_next_id [] size = some 1 ∧
    (size ≤ file.length →
      get_next_id file size =
        some (record_id ((read_all_records file size).getLastD []) + 1)) := by
  constructor
  · simp [get_next_id]
  · intro hlen
    have hc : 1 ≤ file.length / size := (Nat.one_le_div_iff hsz).mpr hlen
    have hne : file.length ≠ 0 := by omega
    rw [get_next_id, if_neg hne, if_neg (by omega)]
    rw [read_all_records_eq file size hsz]
    rcases hm : file.length / size with _ | m
    · omega
    · rw [range_map_getLastD]
      simp

/-- Claim C5 witness: a 28-byte loans file holding one record with id 7. -/
theorem next_id_from_last_record_witness :
    get_next_id (le32 7 ++ List.replicate 24 0) 28 =
      some (record_id ((read_all_records (le32 7 ++ List.replicate 24 0) 28).getLastD []) + 1) :=
  (next_id_from_last_record 28 (le32 7 ++ List.replicate 24 0) (by decide)).2 (by decide)

/-- Claim C8: on a file of exactly three complete records, a point update
at index 1 followed by a scan yields exactly three records, the middle one
replaced and the outer two byte-for-byte unchanged. -/
theorem write_at_scan_frame (size : Nat) (r0 r1 r2 r1' : List Nat) (hsz : 0 < size)
    (h0 : r0.length = size) (h1 : r1.length = size) (h2 : r2.length = size)
    (h1' : r1'.length = size) :
    read_all_records (write_record_at (r0 ++ (r1 ++ r2)) size 1 r1') size = [r0, r1', r2] := by
  have hfl : (r0 ++ (r1 ++ r2)).length = 3 * size := by
    simp [h0, h1, h2]
    ring
  have hwritten : write_record_at (r0 ++ (r1 ++ r2)) size 1 r1' = r0 ++ (r1' ++ r2) := by
    rw [write_record_at]
    rw [one_mul, hfl, h1']
    have htake : (r0 ++ (r1 ++ r2)).take size = r0 := List.take_left' h0
    have hdrop : (r0 ++ (r1 ++ r2)).drop (size + size) = r2 := by
      have : (r0 ++ (r1 ++ r2)).drop (size + size) = ((r0 ++ (r1 ++ r2)).drop size).drop size := by
        rw [List.drop_drop]
      rw [this, List.drop_left' h0, List.drop_left' h1]
    rw [htake, hdrop]
    have : size - 3 * size = 0 := by omega
    rw [this]
    simp
  rw [hwritten]
  rw [read_all_records_eq _ size hsz]
  have hlen : (r0 ++ (r1' ++ r2)).length = 3 * size := by
    simp [h0, h1', h2]
    ring
  rw [hlen, Nat.mul_div_cancel 3 hsz]
  have hr : List.range 3 = [0, 1, 2] := rfl
  rw [hr]
  simp only [List.map_cons, List.map_nil]
  have e0 : ((r0 ++ (r1' ++ r2)).drop (0 * size)).take size = r0 := by
    rw [Nat.zero_mul, List.drop_zero, List.take_left' h0]
  have e1 : ((r0 ++ (r1' ++ r2)).drop (1 * size)).take size = r1' := by
    rw [one_mul, List.drop_left' h0, List.take_left' h1']
  have e2 : ((r0 ++ (r1' ++ r2)).drop (2 * size)).take size = r2 := by
    have h2s : (2 : Nat) * size = size + size := by ring
    rw [h2s, ← List.drop_drop, List.drop_left' h0, List.drop_left' h1']
    exact h2 ▸ List.take_length r2
  rw [e0, e1, e2]

/-- Claim C8 witness: three one-byte records, overwrite the middle one. -/
theorem write_at_scan_frame_witness :
    read_all_records (write_record_at ([1] ++ ([2] ++ [3])) 1 1 [9]) 1 = [[1], [9], [3]] :=
  write_at_scan_frame 1 [1] [2] [3] [9] (by decide) rfl rfl rfl rfl

/-- Claim C10: on a non-empty file shorter than one record, `get_next_id`
fails (the derived record count is 0, making the seek offset negative),
while a scan returns the empty list without error. -/
theorem partial_record_next_id_fails (size : Nat) (file : List Nat)
    (h1 : 0 < file.length) (h2 : file.length < size) :
    get_next_id file size = none ∧ read_all_records file size = [] := by
  constructor
  · rw [get_next_id, if_neg (by omega), if_pos (Nat.div_eq_of_lt h2)]
  · rw [read_all_records_eq file size (by omega), Nat.div_eq_of_lt h2]
    simp

/-- Claim C10 witness: a single stray byte in front of a 116-byte book layout. -/
theorem partial_record_next_id_fails_witness :
    get_next_id [7] 116 = none ∧ read_all_records [7] 116 = [] :=
  partial_record_next_id_fails 116 [7] (by decide) (by decide)

theorem decode_book_bytes (b : Book) (hb : validBook b) :
    decode_book (book_bytes b) =
      { b with
        title := unpack_fixed_str (pack_fixed_str b.title TITLE_LEN)
      , author := unpack_fixed_str (pack_fixed_str b.author AUTHOR_LEN) } := by
  obtain ⟨h1, h2, h3, h4, h5, h6⟩ := hb
  simp only [decode_book, book_bytes]
  rw [List.take_left' (le32_length b.id)]
  rw [List.drop_left' (le32_length b.id)]
  rw [List.take_left' (pack_fixed_str_length b.title TITLE_LEN)]
  rw [List.drop_left' (pack_fixed_str_length b.title TITLE_LEN)]
  rw [List.take_left' (pack_fixed_str_length b.author AUTHOR_LEN)]
  rw [List.drop_left' (pack_fixed_str_length b.author AUTHOR_LEN)]
  rw [List.take_left' (le16_length b.year)]
  rw [List.drop_left' (le16_length b.year)]
  rw [List.take_left' (le16_length b.total)]
  rw [List.drop_left' (le16_length b.total)]
  rw [List.take_left' (le16_length b.available)]
  rw [List.drop_left' (le16_length b.available)]
  rw [le32_le32dec b.id h1, le16_le16dec b.year h2, le16_le16dec b.total h3,
    le16_le16dec b.available h4]
  simp [le32, le32dec, List.getD]
  omega

theorem decode_member_bytes (m : Member) (hm : validMember m) :
    decode_member (member_bytes m) =
      { m with
        name := unpack_fixed_str (pack_fixed_str m.name NAME_LEN)
      , phone := unpack_fixed_str (pack_fixed_str m.phone PHONE_LEN)
      , addr := unpack_fixed_str (pack_fixed_str m.addr ADDR_LEN) } := by
  obtain ⟨h1, h2, h3⟩ := hm
  simp only [decode_member, member_bytes]
  rw [List.take_left' (le32_length m.id)]
  rw [List.drop_left' (le32_length m.id)]
  rw [List.take_left' (pack_fixed_str_length m.name NAME_LEN)]
  rw [List.drop_left' (pack_fixed_str_length m.name NAME_LEN)]
  rw [List.take_left' (pack_fixed_str_length m.phone PHONE_LEN)]
  rw [List.drop_left' (pack_fixed_str_length m.phone PHONE_LEN)]
  rw [List.take_left' (pack_fixed_str_length m.addr ADDR_LEN)]
  rw [List.drop_left' (pack_fixed_str_length m.addr ADDR_LEN)]
  rw [le32_le32dec m.id h1]
  simp [le32, le32dec, List.getD, List.replicate]
  omega

theorem decode_loan_bytes (l : Loan) (hl : validLoan l) :
    decode_loan (loan_bytes l) = l := by
  obtain ⟨h1, h2, h3, h4, h5, h6, h7⟩ := hl
  simp only [decode_loan, loan_bytes]
  rw [List.take_left' (le32_length l.id)]
  rw [List.drop_left' (le32_length l.id)]
  rw [List.take_left' (le32_length l.bookId)]
  rw [List.drop_left' (le32_length l.bookId)]
  rw [List.take_left' (le32_length l.memberId)]
  rw [List.drop_left' (le32_length l.memberId)]
  rw [List.take_left' (le32_length l.borrowTs)]
  rw [List.drop_left' (le32_length l.borrowTs)]
  rw [List.take_left' (le32_length l.returnTs)]
  rw [List.drop_left' (le32_length l.returnTs)]
  rw [le32_le32dec l.id h1, le32_le32dec l.bookId h2, le32_le32dec l.memberId h3,
    le32_le32dec l.borrowTs h4, le32_le32dec l.returnTs h5]
  simp [le32, le32dec, List.getD, List.replicate]
  have hlm : l.lastModified % 256 + 256 * (l.lastModified / 256 % 256) +
      65536 * (l.lastModified / 65536 % 256) +
      16777216 * (l.lastModified / 16777216 % 256) = l.lastModified := by omega
  rw [hlm]

/-- Claim C3: for records of each of the three types whose numeric fields
lie within their declared widths, encoding succeeds and decoding the
fixed-size block recovers the record, its string fields normalised by the
truncation-to-width and NUL-padding rule. -/
theorem codec_round_trip (b : Book) (m : Member) (l : Loan)
    (hb : validBook b) (hm : validMember m) (hl : validLoan l) :
    (encode_book b = some (book_bytes b) ∧
      decode_book (book_bytes b) =
        { b with
          title := unpack_fixed_str (pack_fixed_str b.title TITLE_LEN)
        , author := unpack_fixed_str (pack_fixed_str b.author AUTHOR_LEN) }) ∧
    (encode_member m = some (member_bytes m) ∧
      decode_member (member_bytes m) =
        { m with
          name := unpack_fixed_str (pack_fixed_str m.name NAME_LEN)
        , phone := unpack_fixed_str (pack_fixed_str m.phone PHONE_LEN)
        , addr := unpack_fixed_str (pack_fixed_str m.addr ADDR_LEN) }) ∧
    (encode_loan l = some (loan_bytes l) ∧ decode_loan (loan_bytes l) = l) := by
  refine ⟨⟨?_, decode_book_bytes b hb⟩, ⟨?_, decode_member_bytes m hm⟩,
    ⟨?_, decode_loan_bytes l hl⟩⟩
  · rw [encode_book, if_pos hb]
  · rw [encode_member, if_pos hm]
  · rw [encode_loan, if_pos hl]

/-- Claim C3 witness: one concrete record of each type. -/
theorem codec_round_trip_witness :
    (decode_book (book_bytes ⟨1, [72, 105], [], 1999, 3, 2, 1, 5⟩) =
      { (⟨1, [72, 105], [], 1999, 3, 2, 1, 5⟩ : Book) with
        title := unpack_fixed_str (pack_fixed_str [72, 105] TITLE_LEN)
      , author := unpack_fixed_str (pack_fixed_str [] AUTHOR_LEN) }) ∧
    decode_loan (loan_bytes ⟨3, 1, 2, 7, 0, 1, 7⟩) = ⟨3, 1, 2, 7, 0, 1, 7⟩ :=
  ⟨(codec_round_trip ⟨1, [72, 105], [], 1999, 3, 2, 1, 5⟩ ⟨2, [65], [48], [], 1, 6⟩
      ⟨3, 1, 2, 7, 0, 1, 7⟩ (by decide) (by decide) (by decide)).1.2,
   (codec_round_trip ⟨1, [72, 105], [], 1999, 3, 2, 1, 5⟩ ⟨2, [65], [48], [], 1, 6⟩
      ⟨3, 1, 2, 7, 0, 1, 7⟩ (by decide) (by decide) (by decide)).2.2.2⟩

theorem utf8EncodeChar_ne_nil (c : Nat) : utf8EncodeChar c ≠ [] := by
  unfold utf8EncodeChar
  split_ifs <;> simp

theorem utf8EncodeChar_pos (c : Nat) (hc0 : c ≠ 0) : ∀ b ∈ utf8EncodeChar c, b ≠ 0 := by
  intro b hb
  unfold utf8EncodeChar at hb
  split_ifs at hb <;> simp at hb <;> omega

theorem utf8Encode_pos (s : List Nat) (h : ∀ x ∈ s, x ≠ 0) :
    ∀ b ∈ utf8Encode s, b ≠ 0 := by
  intro b hb
  simp only [utf8Encode, List.mem_flatten, List.mem_map] at hb
  obtain ⟨l, ⟨x, hx, rfl⟩, hbl⟩ := hb
  exact utf8EncodeChar_pos x (h x hx) b hbl

theorem utf8Step_enc (c : Nat) (hc : encodableChar c) (rest : List Nat) :
    utf8Step (utf8EncodeChar c ++ rest) = (some c, rest) := by
  obtain ⟨hlt, hsur⟩ := hc
  by_cases h1 : c < 0x80
  · have he : utf8EncodeChar c = [c] := by rw [utf8EncodeChar, if_pos h1]
    rw [he, List.cons_append, List.nil_append]
    simp only [utf8Step]
    rw [if_pos h1]
  · by_cases h2 : c < 0x800
    · have he : utf8EncodeChar c = [0xC0 + c / 0x40, 0x80 + c % 0x40] := by
        rw [utf8EncodeChar, if_neg h1, if_pos h2]
      rw [he]
      simp only [List.cons_append, List.nil_append, utf8Step]
      rw [if_neg (show ¬(0xC0 + c / 0x40 < 0x80) by omega)]
      rw [if_neg (show ¬(0xC0 + c / 0x40 < 0xC2) by omega)]
      rw [if_pos (show 0xC0 + c / 0x40 ≤ 0xDF by omega)]
      rw [if_pos (show 0x80 ≤ 0x80 + c % 0x40 ∧ 0x80 + c % 0x40 ≤ 0xBF by
        constructor <;> omega)]
      simp only [Prod.mk.injEq, Option.some.injEq]
      exact ⟨by omega, trivial⟩
    · by_cases h3 : c < 0x10000
      · have he : utf8EncodeChar c =
            [0xE0 + c / 0x1000, 0x80 + c / 0x40 % 0x40, 0x80 + c % 0x40] := by
          rw [utf8EncodeChar, if_neg h1, if_neg h2, if_pos h3]
        rw [he]
        simp only [List.cons_append, List.nil_append, utf8Step]
        rw [if_neg (show ¬(0xE0 + c / 0x1000 < 0x80) by omega)]
        rw [if_neg (show ¬(0xE0 + c / 0x1000 < 0xC2) by omega)]
        rw [if_neg (show ¬(0xE0 + c / 0x1000 ≤ 0xDF) by omega)]
        rw [if_pos (show 0xE0 + c / 0x1000 ≤ 0xEF by omega)]
        have hcont : cont3Lo (0xE0 + c / 0x1000) ≤ 0x80 + c / 0x40 % 0x40 ∧
            0x80 + c / 0x40 % 0x40 ≤ cont3Hi (0xE0 + c / 0x1000) := by
          unfold cont3Lo cont3Hi
          constructor
          · split_ifs <;> omega
          · split_ifs <;> omega
        rw [if_pos hcont]
        rw [if_pos (show 0x80 ≤ 0x80 + c % 0x40 ∧ 0x80 + c % 0x40 ≤ 0xBF by
          constructor <;> omega)]
        simp only [Prod.mk.injEq, Option.some.injEq]
        exact ⟨by omega, trivial⟩
      · have he : utf8EncodeChar c =
            [0xF0 + c / 0x40000, 0x80 + c / 0x1000 % 0x40, 0x80 + c / 0x40 % 0x40,
              0x80 + c % 0x40] := by
          rw [utf8EncodeChar, if_neg h1, if_neg h2, if_neg h3]
        rw [he]
        simp only [List.cons_append, List.nil_append, utf8Step]
        rw [if_neg (show ¬(0xF0 + c / 0x40000 < 0x80) by omega)]
        rw [if_neg (show ¬(0xF0 + c / 0x40000 < 0xC2) by omega)]
        rw [if_neg (show ¬(0xF0 + c / 0x40000 ≤ 0xDF) by omega)]
        rw [if_neg (show ¬(0xF0 + c / 0x40000 ≤ 0xEF) by omega)]
        rw [if_pos (show 0xF0 + c / 0x40000 ≤ 0xF4 by omega)]
        have hcont : cont4Lo (0xF0 + c / 0x40000) ≤ 0x80 + c / 0x1000 % 0x40 ∧
            0x80 + c / 0x1000 % 0x40 ≤ cont4Hi (0xF0 + c / 0x40000) := by
          unfold cont4Lo cont4Hi
          constructor
          · split_ifs <;> omega
          · split_ifs <;> omega
        rw [if_pos hcont]
        rw [if_pos (show 0x80 ≤ 0x80 + c / 0x40 % 0x40 ∧ 0x80 + c / 0x40 % 0x40 ≤ 0xBF by
          constructor <;> omega)]
        rw [if_pos (show 0x80 ≤ 0x80 + c % 0x40 ∧ 0x80 + c % 0x40 ≤ 0xBF by
          constructor <;> omega)]
        simp only [Prod.mk.injEq, Option.some.injEq]
        exact ⟨by omega, trivial⟩

theorem utf8DecodeIgnore_enc_cons (c : Nat) (hc : encodableChar c) (rest : List Nat) :
    utf8DecodeIgnore (utf8EncodeChar c ++ rest) = c :: utf8DecodeIgnore rest := by
  have hne : utf8EncodeChar c ++ rest ≠ [] := by
    simp [utf8EncodeChar_ne_nil]
  rw [utf8DecodeIgnore_eq_step _ hne, utf8Step_enc c hc rest]

theorem utf8DecodeIgnore_enc_append (s : List Nat) (h : ∀ x ∈ s, encodableChar x)
    (rest : List Nat) :
    utf8DecodeIgnore (utf8Encode s ++ rest) = s ++ utf8DecodeIgnore rest := by
  induction s with
  | nil => simp [utf8Encode]
  | cons c t ih =>
    have hce : utf8Encode (c :: t) = utf8EncodeChar c ++ utf8Encode t := by
      simp [utf8Encode]
    rw [hce, List.append_assoc, utf8DecodeIgnore_enc_cons c (h c (by simp))]
    rw [ih (fun x hx => h x (by simp [hx]))]
    rfl

theorem decode_singleton_nonascii (b : Nat) (hb : 0x80 ≤ b) :
    utf8DecodeIgnore [b] = [] := by
  show utf8DecodeLoop 1 [b] = []
  simp only [utf8DecodeLoop, utf8Step]
  split_ifs <;> first | rfl | omega

theorem decode_pair_cont (b1 b2 : Nat) (hb1 : 0x80 ≤ b1) (hb1' : b1 < 0xC2)
    (hb2 : 0x80 ≤ b2) : utf8DecodeIgnore [b1, b2] = [] := by
  show utf8DecodeLoop 2 [b1, b2] = []
  simp only [utf8DecodeLoop, utf8Step]
  split_ifs <;>
    first
      | rfl
      | omega
      | exact decode_singleton_nonascii b2 hb2

theorem decode_pair_lead3 (b1 b2 : Nat) (hb1 : 0xE0 ≤ b1) (hb2 : 0x80 ≤ b2) :
    utf8DecodeIgnore [b1, b2] = [] := by
  show utf8DecodeLoop 2 [b1, b2] = []
  simp only [utf8DecodeLoop, utf8Step]
  split_ifs <;>
    first
      | rfl
      | omega
      | exact decode_singleton_nonascii b2 hb2

theorem decode_triple_lead4 (b1 b2 b3 : Nat) (hb1 : 0xF0 ≤ b1) (hb2 : 0x80 ≤ b2)
    (hb2' : b2 ≤ 0xBF) (hb3 : 0x80 ≤ b3) (hb3' : b3 ≤ 0xBF) :
    utf8DecodeIgnore [b1, b2, b3] = [] := by
  show utf8DecodeLoop 3 [b1, b2, b3] = []
  simp only [utf8DecodeLoop, utf8Step]
  split_ifs <;>
    first
      | rfl
      | omega
      | exact decode_singleton_nonascii b3 hb3
      | exact decode_pair_cont b2 b3 hb2 (by omega) hb3

theorem utf8DecodeIgnore_enc_partial (c k : Nat) (hk : k < (utf8EncodeChar c).length) :
    utf8DecodeIgnore ((utf8EncodeChar c).take k) = [] := by
  by_cases h1 : c < 0x80
  · have he : utf8EncodeChar c = [c] := by rw [utf8EncodeChar, if_pos h1]
    rw [he] at hk ⊢
    simp only [List.length_cons, List.length_nil] at hk
    interval_cases k
    · rfl
  · by_cases h2 : c < 0x800
    · have he : utf8EncodeChar c = [0xC0 + c / 0x40, 0x80 + c % 0x40] := by
        rw [utf8EncodeChar, if_neg h1, if_pos h2]
      rw [he] at hk ⊢
      simp only [List.length_cons, List.length_nil] at hk
      interval_cases k
      · rfl
      · exact decode_singleton_nonascii _ (by omega)
    · by_cases h3 : c < 0x10000
      · have he : utf8EncodeChar c =
            [0xE0 + c / 0x1000, 0x80 + c / 0x40 % 0x40, 0x80 + c % 0x40] := by
          rw [utf8EncodeChar, if_neg h1, if_neg h2, if_pos h3]
        rw [he] at hk ⊢
        simp only [List.length_cons, List.length_nil] at hk
        interval_cases k
        · rfl
        · exact decode_singleton_nonascii _ (by omega)
        · exact decode_pair_lead3 _ _ (by omega) (by omega)
      · have he : utf8EncodeChar c =
            [0xF0 + c / 0x40000, 0x80 + c / 0x1000 % 0x40, 0x80 + c / 0x40 % 0x40,
              0x80 + c % 0x40] := by
          rw [utf8EncodeChar, if_neg h1, if_neg h2, if_neg h3]
        rw [he] at hk ⊢
        simp only [List.length_cons, List.length_nil] at hk
        interval_cases k
        · rfl
        · exact decode_singleton_nonascii _ (by omega)
        · exact decode_pair_lead3 _ _ (by omega) (by omega)
        · exact decode_triple_lead4 _ _ _ (by omega) (by omega) (by omega) (by omega) (by omega)

theorem takeWhile_ne_zero (l : List Nat) (h : ∀ b ∈ l, b ≠ 0) :
    l.takeWhile (fun x => x != 0) = l :=
  List.takeWhile_eq_self_iff.mpr (by intro x hx; simpa using h x hx)

/-- Claim C4 counterexample: a title of 59 ASCII letters followed by U+00E9
encodes to 61 UTF-8 bytes; the 60-byte cut falls inside the final two-byte
sequence, and the decoded field value re-encodes to 59 bytes, not to the
first 60 bytes of the original encoding. -/
theorem truncation_multibyte_cut_cex :
    (utf8Encode (List.replicate 59 97 ++ [233])).length = 61 ∧
    utf8Encode (unpack_fixed_str
        (pack_fixed_str (List.replicate 59 97 ++ [233]) TITLE_LEN)) ≠
      (utf8Encode (List.replicate 59 97 ++ [233])).take TITLE_LEN := by
  decide

/-- Claim C4 as amended: when the field-width cut lands after the complete
characters `s₁` and inside (or right before) the encoding of the next
character `c` of a longer NUL-free string, the decoded value is exactly
`s₁`, so its UTF-8 encoding equals the longest prefix of the first `N`
bytes that ends on a character boundary; the cut-off partial sequence is
dropped by the errors-ignore decode. -/
theorem truncation_boundary_safe (s₁ : List Nat) (c : Nat) (s₂ : List Nat) (N : Nat)
    (h₁ : ∀ x ∈ s₁, encodableChar x ∧ x ≠ 0) (hc : encodableChar c) (hc0 : c ≠ 0)
    (hN₁ : (utf8Encode s₁).length ≤ N)
    (hN₂ : N < (utf8Encode s₁).length + (utf8EncodeChar c).length) :
    unpack_fixed_str (pack_fixed_str (s₁ ++ c :: s₂) N) = s₁ ∧
    utf8Encode (unpack_fixed_str (pack_fixed_str (s₁ ++ c :: s₂) N)) =
      (utf8Encode (s₁ ++ c :: s₂)).take ((utf8Encode s₁).length) := by
  have henc : utf8Encode (s₁ ++ c :: s₂) =
      utf8Encode s₁ ++ (utf8EncodeChar c ++ utf8Encode s₂) := by
    simp [utf8Encode]
  have htake : (utf8Encode (s₁ ++ c :: s₂)).take N =
      utf8Encode s₁ ++ (utf8EncodeChar c).take (N - (utf8Encode s₁).length) := by
    rw [henc, List.take_append_eq_append_take, List.take_of_length_le hN₁,
      List.take_append_of_le_length (by omega)]
  have hlen : ((utf8Encode (s₁ ++ c :: s₂)).take N).length = N := by
    rw [htake]
    simp only [List.length_append, List.length_take]
    omega
  have hpack : pack_fixed_str (s₁ ++ c :: s₂) N =
      utf8Encode s₁ ++ (utf8EncodeChar c).take (N - (utf8Encode s₁).length) := by
    simp only [pack_fixed_str]
    rw [hlen, Nat.sub_self]
    simp only [List.replicate, List.append_nil]
    exact htake
  have hnz : ∀ b ∈ utf8Encode s₁ ++ (utf8EncodeChar c).take (N - (utf8Encode s₁).length),
      b ≠ 0 := by
    intro b hb
    rcases List.mem_append.mp hb with h | h
    · exact utf8Encode_pos s₁ (fun x hx => (h₁ x hx).2) b h
    · exact utf8EncodeChar_pos c hc0 b (List.take_subset _ _ h)
  have hdec : unpack_fixed_str (pack_fixed_str (s₁ ++ c :: s₂) N) = s₁ := by
    rw [unpack_fixed_str, hpack, takeWhile_ne_zero _ hnz,
      utf8DecodeIgnore_enc_append s₁ (fun x hx => (h₁ x hx).1),
      utf8DecodeIgnore_enc_partial c _ (by omega), List.append_nil]
  refine ⟨hdec, ?_⟩
  rw [hdec, henc, List.take_left]

/-- Claim C4 witness: packing the string aéb into a 2-byte field cuts
inside the é and decodes back to just the a. -/
theorem truncation_boundary_safe_witness :
    unpack_fixed_str (pack_fixed_str ([97] ++ 233 :: [98]) 2) = [97] ∧
    utf8Encode (unpack_fixed_str (pack_fixed_str ([97] ++ 233 :: [98]) 2)) =
      (utf8Encode ([97] ++ 233 :: [98])).take ((utf8Encode [97]).length) :=
  truncation_boundary_safe [97] 233 [98] 2 (by decide) (by decide) (by decide) (by decide)
    (by decide)

theorem find_by_id_shift {α : Type} (key : α → Nat) (idx : Nat) (rows : List α) (t : Nat) :
    find_by_id key idx rows t = (find_by_id key 0 rows t).map (fun p => (p.1 + idx, p.2)) := by
  induction rows generalizing idx with
  | nil => rfl
  | cons r rest ih =>
    simp only [find_by_id]
    by_cases h : key r = t
    · simp [h]
    · rw [if_neg h, if_neg h, ih (idx + 1), ih 1]
      cases find_by_id key 0 rest t with
      | none => rfl
      | some p => simp <;> omega

theorem find_by_id_cons {α : Type} (key : α → Nat) (r : α) (rows : List α) (t : Nat) :
    find_by_id key 0 (r :: rows) t =
      if key r = t then some (0, r)
      else (find_by_id key 0 rows t).map (fun p => (p.1 + 1, p.2)) := by
  by_cases h : key r = t
  · simp only [find_by_id, if_pos h]
  · simp only [find_by_id, if_neg h]
    exact find_by_id_shift key 1 rows t

theorem find_by_id_spec {α : Type} (key : α → Nat) (rows : List α) (t j : Nat) (row : α)
    (h : find_by_id key 0 rows t = some (j, row)) : rows[j]? = some row ∧ key row = t := by
  induction rows generalizing j with
  | nil => simp [find_by_id] at h
  | cons r rest ih =>
    rw [find_by_id_cons] at h
    by_cases hk : key r = t
    · rw [if_pos hk] at h
      simp only [Option.some.injEq, Prod.mk.injEq] at h
      obtain ⟨hj, hr⟩ := h
      subst hj
      subst hr
      exact ⟨by simp, hk⟩
    · rw [if_neg hk] at h
      cases hf : find_by_id key 0 rest t with
      | none => rw [hf] at h; simp at h
      | some p =>
        obtain ⟨q, rowq⟩ := p
        rw [hf] at h
        simp at h
        obtain ⟨hj, hr⟩ := h
        subst hr
        have := ih q (by rw [hf])
        rw [← hj]
        simpa using this

theorem find_by_id_set {α : Type} (key : α → Nat) (rows : List α) (t j : Nat) (row row' : α)
    (h : find_by_id key 0 rows t = some (j, row)) (hkey : key row' = key row) :
    find_by_id key 0 (rows.set j row') t = some (j, row') := by
  induction rows generalizing j with
  | nil => simp [find_by_id] at h
  | cons r rest ih =>
    rw [find_by_id_cons] at h
    by_cases hk : key r = t
    · rw [if_pos hk] at h
      simp only [Option.some.injEq, Prod.mk.injEq] at h
      obtain ⟨hj, hr⟩ := h
      subst hj
      subst hr
      rw [List.set_cons_zero, find_by_id_cons, if_pos (by rw [hkey, hk])]
    · rw [if_neg hk] at h
      cases hf : find_by_id key 0 rest t with
      | none => rw [hf] at h; simp at h
      | some p =>
        obtain ⟨q, rowq⟩ := p
        rw [hf] at h
        simp at h
        obtain ⟨hj, hr⟩ := h
        subst hr
        rw [← hj, List.set_cons_succ, find_by_id_cons, if_neg hk,
          ih q (by rw [hf])]
        rfl

/-- Claim C1 counterexample: borrowing succeeds for soft-deleted book 2 by
soft-deleted member 2 (a loan is appended), because neither
`find_book_by_id` nor `find_member_by_id` filters on the active flag. -/
theorem borrow_ignores_active_flag :
    (add_loan c1State 2 2 5).1 = BorrowRes.ok 1 ∧
    (find_book_by_id c1State.books 2).map (fun p => p.2.active) = some 0 ∧
    (find_member_by_id c1State.members 2).map (fun p => p.2.active) = some 0 ∧
    (add_loan c1State 2 2 5).2.loans ≠ c1State.loans := by
  decide

/-- Claim C1 as amended: a borrow succeeds only when the named book exists
with a positive available count and the named member exists (the active
flag of neither is checked); every failing path reports its failure and
returns with no loan appended and no record changed. -/
theorem borrow_success_preconditions (st : LibState) (bid mid now : Nat) :
    ((add_loan st bid mid now).1.isOk = true →
      (∃ i bk, find_book_by_id st.books bid = some (i, bk) ∧ 0 < bk.available) ∧
      (∃ j mem, find_member_by_id st.members mid = some (j, mem))) ∧
    ((add_loan st bid mid now).1.isOk = false → (add_loan st bid mid now).2 = st) := by
  unfold add_loan
  by_cases h1 : (list_books st.books false).isEmpty = true
  · rw [if_pos h1]
    simp [BorrowRes.isOk]
  · rw [if_neg h1]
    cases hfb : find_book_by_id st.books bid with
    | none => simp [BorrowRes.isOk]
    | some p =>
      obtain ⟨i, bk⟩ := p
      dsimp only
      by_cases h2 : bk.available ≤ 0
      · rw [if_pos h2]
        simp [BorrowRes.isOk]
      · rw [if_neg h2]
        by_cases h3 : (list_members st.members false).isEmpty = true
        · rw [if_pos h3]
          simp [BorrowRes.isOk]
        · rw [if_neg h3]
          cases hfm : find_member_by_id st.members mid with
          | none => simp [BorrowRes.isOk]
          | some q =>
            obtain ⟨j, mem⟩ := q
            dsimp only
            constructor
            · intro _
              exact ⟨⟨i, bk, rfl, by omega⟩, ⟨j, mem, rfl⟩⟩
            · intro hfalse
              simp [BorrowRes.isOk] at hfalse

/-- Claim C1 witness: borrowing a book id that does not exist fails and
leaves the state unchanged. -/
theorem borrow_success_preconditions_witness :
    (add_loan c1State 9 1 5).1.isOk = false ∧ (add_loan c1State 9 1 5).2 = c1State :=
  ⟨by decide, (borrow_success_preconditions c1State 9 1 5).2 (by decide)⟩

/-- Claim C2: updating an existing book with a new total (year and total
both supplied, since a blank numeric field crashes before any write)
stores `available = max 0 (oldAvailable + (newTotal - oldTotal))` at the
book's index; when the total grows, availability grows by exactly the
delta. -/
theorem update_book_sets_clamped_available (books : List BookRow)
    (bid idx now newYear newTotal : Nat) (nt na : Option (List Nat))
    (row : BookRow) (hfind : find_book_by_id books bid = some (idx, row))
    (hy : newYear < 2 ^ 16) (ht : newTotal < 2 ^ 16)
    (hav : (max 0 ((row.available : Int) + ((newTotal : Int) - (row.total : Int)))).toNat
      < 2 ^ 16)
    (hid : row.id < 2 ^ 32) (hac : row.active < 2 ^ 8) (hnow : now < 2 ^ 32) :
    ∃ books', update_book books bid nt na (some newYear) (some newTotal) now = some books' ∧
      books'[idx]?.map BookRow.available =
        some ((max 0 ((row.available : Int) + ((newTotal : Int) - (row.total : Int)))).toNat) ∧
      (row.total ≤ newTotal →
        books'[idx]?.map BookRow.available = some (row.available + (newTotal - row.total))) := by
  have hidx : idx < books.length := by
    have := (find_by_id_spec BookRow.id books bid idx row hfind).1
    exact List.getElem?_eq_some_iff.mp this |>.1
  unfold update_book
  rw [hfind]
  dsimp only [bookRowToBook, Option.getD]
  rw [if_pos ⟨hid, hy, ht, hav, hac, hnow⟩]
  refine ⟨_, rfl, ?_, ?_⟩
  · rw [List.getElem?_set_self (by exact hidx)]
    rfl
  · intro hle
    rw [List.getElem?_set_self (by exact hidx)]
    show some ((max 0 ((row.available : Int) + ((newTotal : Int) - (row.total : Int)))).toNat)
      = some (row.available + (newTotal - row.total))
    refine congrArg _ ?_
    omega

/-- Claim C2 witness: year re-entered as 2000, total shrinks from 5 to 3
with 5 available, leaving 3. -/
theorem update_book_sets_clamped_available_witness :
    (update_book [⟨1, [], [], 2000, 5, 5, 1, 0⟩] 1 none none (some 2000) (some 3) 7).map
      (fun books' => books'[0]?.map BookRow.available) = some (some 3) := by
  obtain ⟨books', h1, h2, h3⟩ :=
    update_book_sets_clamped_available [⟨1, [], [], 2000, 5, 5, 1, 0⟩] 1 0 7 2000 3 none
      none ⟨1, [], [], 2000, 5, 5, 1, 0⟩ (by decide) (by decide) (by decide) (by decide)
      (by decide) (by decide) (by decide)
  rw [h1]
  have hv : (max 0 (((⟨1, [], [], 2000, 5, 5, 1, 0⟩ : BookRow).available : Int) +
      (((3 : Nat) : Int) - ((⟨1, [], [], 2000, 5, 5, 1, 0⟩ : BookRow).total : Int)))).toNat
      = 3 := by decide
  rw [hv] at h2
  rw [Option.map_some']
  exact congrArg some h2

/-- Claim C7: soft-deleting a member or book that is referenced by at least
one open loan (return timestamp 0) fails without reaching the write, so the
whole state, the target's active flag included, is unchanged. -/
theorem soft_delete_blocked_by_open_loan (st : LibState) (l : Loan) (mid bid now : Nat)
    (hl : l ∈ st.loans) (hopen : l.returnTs = 0) :
    (l.memberId = mid →
      (delete_member st mid now).1 ≠ DelRes.ok ∧ (delete_member st mid now).2 = st) ∧
    (l.bookId = bid →
      (delete_book st bid now).1 ≠ DelRes.ok ∧ (delete_book st bid now).2 = st) := by
  constructor
  · intro hmid
    unfold delete_member
    by_cases h1 : st.members.isEmpty = true
    · rw [if_pos h1]
      exact ⟨by simp, rfl⟩
    · rw [if_neg h1]
      cases hfm : find_member_by_id st.members mid with
      | none => exact ⟨by simp, rfl⟩
      | some p =>
        obtain ⟨idx, mem⟩ := p
        dsimp only [memberRowToMember]
        by_cases h2 : mem.active = 0
        · rw [if_pos h2]
          exact ⟨by simp, rfl⟩
        · rw [if_neg h2]
          have hmem : l ∈ (list_loans st.loans true).filter
              (fun x => x.memberId == mid && x.returnTs == 0) := by
            refine List.mem_filter.mpr ⟨?_, ?_⟩
            · exact List.mem_filter.mpr ⟨hl, by simp⟩
            · simp [hmid, hopen]
          rw [if_pos (by
            intro hemp
            exact List.ne_nil_of_mem hmem (List.isEmpty_iff.mp hemp))]
          exact ⟨by simp, rfl⟩
  · intro hbid
    unfold delete_book
    by_cases h1 : st.books.isEmpty = true
    · rw [if_pos h1]
      exact ⟨by simp, rfl⟩
    · rw [if_neg h1]
      cases hfb : find_book_by_id st.books bid with
      | none => exact ⟨by simp, rfl⟩
      | some p =>
        obtain ⟨idx, bk⟩ := p
        dsimp only [bookRowToBook]
        by_cases h2 : bk.active = 0
        · rw [if_pos h2]
          exact ⟨by simp, rfl⟩
        · rw [if_neg h2]
          have hmem : l ∈ (list_loans st.loans true).filter
              (fun x => x.bookId == bid && x.returnTs == 0) := by
            refine List.mem_filter.mpr ⟨?_, ?_⟩
            · exact List.mem_filter.mpr ⟨hl, by simp⟩
            · simp [hbid, hopen]
          rw [if_pos (by
            intro hemp
            exact List.ne_nil_of_mem hmem (List.isEmpty_iff.mp hemp))]
          exact ⟨by simp, rfl⟩

/-- Claim C7 witness: the one open loan in `c7State` blocks deleting both
member 1 and book 1, leaving the state untouched. -/
theorem soft_delete_blocked_by_open_loan_witness :
    (delete_member c7State 1 9).1 ≠ DelRes.ok ∧ (delete_member c7State 1 9).2 = c7State ∧
    (delete_book c7State 1 9).1 ≠ DelRes.ok ∧ (delete_book c7State 1 9).2 = c7State := by
  obtain ⟨hm, hb⟩ := soft_delete_blocked_by_open_loan c7State
    ⟨1, 1, 1, 3, 0, 1, 3⟩ 1 1 9 (by decide) rfl
  obtain ⟨hm1, hm2⟩ := hm rfl
  obtain ⟨hb1, hb2⟩ := hb rfl
  exact ⟨hm1, hm2, hb1, hb2⟩

theorem add_loan_loans_shape (st : LibState) (bid mid now : Nat) :
    (add_loan st bid mid now).2.loans = st.loans ∨
      ∃ nl, (add_loan st bid mid now).2.loans = st.loans ++ [nl] := by
  unfold add_loan
  repeat' split
  all_goals first
    | exact Or.inl rfl
    | exact Or.inr ⟨_, rfl⟩

theorem return_loan_loans_shape (st : LibState) (lid now : Nat) :
    (return_loan st lid now).2.loans = st.loans ∨
      ∃ idx loan, find_loan_by_id st.loans lid = some (idx, loan) ∧ loan.returnTs = 0 ∧
        (return_loan st lid now).2.loans =
          st.loans.set idx { loan with returnTs := now, lastModified := now } := by
  unfold return_loan
  by_cases h1 : ((list_loans st.loans true).filter (fun l => l.returnTs == 0)).isEmpty = true
  · rw [if_pos h1]
    exact Or.inl rfl
  · rw [if_neg h1]
    cases hfl : find_loan_by_id st.loans lid with
    | none => exact Or.inl rfl
    | some p =>
      obtain ⟨idx, loan⟩ := p
      dsimp only
      by_cases h2 : loan.returnTs ≠ 0
      · rw [if_pos h2]
        exact Or.inl rfl
      · rw [if_neg h2]
        exact Or.inr ⟨idx, loan, rfl, by omega, rfl⟩

theorem delete_member_loans (st : LibState) (mid now : Nat) :
    (delete_member st mid now).2.loans = st.loans := by
  unfold delete_member
  repeat' split
  all_goals (dsimp only; repeat' split)
  all_goals rfl

theorem delete_book_loans (st : LibState) (bid now : Nat) :
    (delete_book st bid now).2.loans = st.loans := by
  unfold delete_book
  repeat' split
  all_goals (dsimp only; repeat' split)
  all_goals rfl

/-- Claim C6: a successful return stamps the loan's return timestamp with
the (non-zero) current time; calling the return operation again for the
same loan id then fails and changes nothing, and no operation (borrow,
return, member delete, book delete) touches the return timestamp of any
loan already marked returned. -/
theorem loan_return_one_way (st st1 : LibState) (lid now now2 bid2 mid2 now3 lid3 now4 : Nat)
    (hnow : 0 < now) :
    (return_loan st lid now = (ReturnRes.ok, st1) →
      (∃ idx loan, find_loan_by_id st.loans lid = some (idx, loan) ∧ loan.returnTs = 0 ∧
        st1.loans = st.loans.set idx { loan with returnTs := now, lastModified := now } ∧
        st1.loans[idx]?.map Loan.returnTs = some now) ∧
      (return_loan st1 lid now2).1 ≠ ReturnRes.ok ∧ (return_loan st1 lid now2).2 = st1) ∧
    (∀ (i : Nat) (l : Loan), st.loans[i]? = some l → l.returnTs ≠ 0 →
      (add_loan st bid2 mid2 now3).2.loans[i]? = some l ∧
      (return_loan st lid3 now4).2.loans[i]?.map Loan.returnTs = some l.returnTs ∧
      (delete_member st mid2 now3).2.loans = st.loans ∧
      (delete_book st bid2 now3).2.loans = st.loans) := by
  constructor
  · intro hok
    unfold return_loan at hok
    by_cases h1 : ((list_loans st.loans true).filter (fun l => l.returnTs == 0)).isEmpty = true
    · rw [if_pos h1] at hok
      simp at hok
    · rw [if_neg h1] at hok
      cases hfl : find_loan_by_id st.loans lid with
      | none =>
        rw [hfl] at hok
        simp at hok
      | some p =>
        obtain ⟨idx, loan⟩ := p
        rw [hfl] at hok
        dsimp only at hok
        by_cases h2 : loan.returnTs ≠ 0
        · rw [if_pos h2] at hok
          simp at hok
        · rw [if_neg h2] at hok
          have hts : loan.returnTs = 0 := by omega
          have hidx : idx < st.loans.length := by
            have := (find_by_id_spec Loan.id st.loans lid idx loan hfl).1
            exact (List.getElem?_eq_some_iff.mp this).1
          have hst1 := congrArg Prod.snd hok
          dsimp only at hst1
          have hloans : st1.loans =
              st.loans.set idx { loan with returnTs := now, lastModified := now } := by
            rw [← hst1]
          have hfind2 : find_loan_by_id st1.loans lid =
              some (idx, { loan with returnTs := now, lastModified := now }) := by
            rw [hloans]
            exact find_by_id_set Loan.id st.loans lid idx loan _ hfl rfl
          refine ⟨⟨idx, loan, rfl, hts, hloans, ?_⟩, ?_⟩
          · rw [hloans, List.getElem?_set_self hidx]
            rfl
          · unfold return_loan
            by_cases he : ((list_loans st1.loans true).filter
                (fun l => l.returnTs == 0)).isEmpty = true
            · rw [if_pos he]
              exact ⟨by simp, rfl⟩
            · rw [if_neg he]
              rw [hfind2]
              dsimp only
              rw [if_pos (show ({ loan with returnTs := now, lastModified := now } :
                  Loan).returnTs ≠ 0 by simp; omega)]
              exact ⟨by simp, rfl⟩
  · intro i l hi hne
    have hlen : i < st.loans.length := (List.getElem?_eq_some_iff.mp hi).1
    refine ⟨?_, ?_, delete_member_loans st mid2 now3, delete_book_loans st bid2 now3⟩
    · rcases add_loan_loans_shape st bid2 mid2 now3 with h | ⟨nl, h⟩
      · rw [h, hi]
      · rw [h, List.getElem?_append_left hlen, hi]
    · rcases return_loan_loans_shape st lid3 now4 with h | ⟨idx, loan, hfl, hts, h⟩
      · rw [h, hi]
        rfl
      · have hne2 : i ≠ idx := by
          intro heq
          subst heq
          have hspec := (find_by_id_spec Loan.id st.loans lid3 i loan hfl).1
          rw [hi] at hspec
          simp only [Option.some.injEq] at hspec
          rw [hspec] at hne
          omega
        rw [h, List.getElem?_set_ne (Ne.symm hne2), hi]
        rfl

/-- Claim C6 witness: returning loan 1 of `c6State` at time 5 yields
`c6State1`, and returning it again at time 7 fails and changes nothing. -/
theorem loan_return_one_way_witness :
    0 < 5 ∧ return_loan c6State 1 5 = (ReturnRes.ok, c6State1) ∧
    (return_loan c6State1 1 7).1 ≠ ReturnRes.ok ∧ (return_loan c6State1 1 7).2 = c6State1 :=
  ⟨by decide, by decide,
   ((loan_return_one_way c6State c6State1 1 5 7 0 0 0 0 0 (by decide)).1 (by decide)).2.1,
   ((loan_return_one_way c6State c6State1 1 5 7 0 0 0 0 0 (by decide)).1 (by decide)).2.2⟩

theorem group_upsert_filter (acc : List (Nat × List Loan)) (k : Nat) (l : Loan) (mid : Nat) :
    (group_upsert acc k l).filter (fun p => p.1 == mid) =
      if k = mid then
        match acc.filter (fun p => p.1 == mid) with
        | [] => [(k, [l])]
        | (k', ls) :: tail => (k', ls ++ [l]) :: tail
      else acc.filter (fun p => p.1 == mid) := by
  induction acc with
  | nil =>
    by_cases h : k = mid
    · simp [group_upsert, h]
    · simp [group_upsert, h]
  | cons hd acc ih =>
    obtain ⟨k', ls'⟩ := hd
    simp only [group_upsert]
    by_cases h1 : k' = k
    · rw [if_pos h1]
      by_cases h2 : k = mid
      · have hk' : (k' == mid) = true := by simp [h1, h2]
        rw [if_pos h2]
        simp only [List.filter_cons, hk', if_true]
      · have hk' : (k' == mid) = false := by
          simp only [beq_eq_false_iff_ne]
          omega
        rw [if_neg h2]
        simp only [List.filter_cons, hk']
        simp
    · rw [if_neg h1]
      by_cases h2 : k' = mid
      · have hk : ¬(k = mid) := by omega
        have hk' : (k' == mid) = true := by simp [h2]
        rw [if_neg hk]
        simp only [List.filter_cons, hk', if_true]
        rw [ih, if_neg hk]
      · have hk' : (k' == mid) = false := by simp [h2]
        simp only [List.filter_cons, hk']
        exact ih

theorem group_foldl_filter :
    ∀ (loans : List Loan) (acc : List (Nat × List Loan)) (mid : Nat),
      (List.foldl (fun a l => group_upsert a l.memberId l) acc loans).filter
          (fun p => p.1 == mid) =
        match acc.filter (fun p => p.1 == mid) with
        | [] =>
          if (loans.filter (fun l => l.memberId == mid)).isEmpty = true then []
          else [(mid, loans.filter (fun l => l.memberId == mid))]
        | (k, ls) :: tail => (k, ls ++ loans.filter (fun l => l.memberId == mid)) :: tail := by
  intro loans
  induction loans with
  | nil =>
    intro acc mid
    simp only [List.foldl_nil, List.filter_nil]
    cases hacc : acc.filter (fun p => p.1 == mid) with
    | nil => rfl
    | cons hd tail =>
      obtain ⟨k, ls⟩ := hd
      simp
  | cons l rest ih =>
    intro acc mid
    simp only [List.foldl_cons]
    rw [ih (group_upsert acc l.memberId l) mid]
    rw [group_upsert_filter]
    by_cases h : l.memberId = mid
    · rw [if_pos h]
      have hpred : (l.memberId == mid) = true := by simp [h]
      simp only [List.filter_cons, hpred, if_true]
      cases hacc : acc.filter (fun p => p.1 == mid) with
      | nil => simp [h]
      | cons hd tail =>
        obtain ⟨k, ls⟩ := hd
        simp
    · rw [if_neg h]
      have hpred : (l.memberId == mid) = false := by simp [h]
      simp [List.filter_cons, hpred]

theorem list_loans_true (loans : List Loan) : list_loans loans true = loans := by
  simp [list_loans]

theorem group_loans_filter (loans : List Loan) (mid : Nat) :
    (group_loans loans).filter (fun p => p.1 == mid) =
      if (loans.filter (fun l => l.memberId == mid)).isEmpty = true then []
      else [(mid, loans.filter (fun l => l.memberId == mid))] := by
  have h := group_foldl_filter loans [] mid
  simpa [group_loans] using h

/-- Claim C9 counterexample: member 1 borrowed two books whose titles are 30
characters each; the emitted titles column is the first 27 characters of the
first title, not the concatenation of all borrowed titles (the second title
is cut off entirely by the 27-character truncation). -/
theorem report_titles_truncated_cex :
    ((report_rows c9State.books c9State.members c9State.loans).filter
        (fun p => p.1 == 1)).map (fun p => p.2.titles) = [List.replicate 27 65] ∧
    List.replicate 27 65 ≠
      List.intercalate [59, 32]
        ((c9State.loans.filter (fun l => l.memberId == 1)).map
          (fun l => loan_title c9State.books l.bookId)) := by
  decide

/-- Claim C9 as amended: each member id with at least one loan yields
exactly one borrow-history row; its titles column is the `"; "`-join of all
of that member's borrowed titles truncated to its first 27 characters,
while the loan-date, return-date and status columns come from that member's
first loan only. -/
theorem report_first_loan_columns (books : List BookRow) (members : List MemberRow)
    (loans : List Loan) (mid : Nat) (l0 : Loan) (ls' : List Loan)
    (hsplit : loans.filter (fun l => l.memberId == mid) = l0 :: ls') :
    (report_rows books members loans).filter (fun p => p.1 == mid) =
      [(mid, mk_report_row books members mid (l0 :: ls'))] ∧
    (mk_report_row books members mid (l0 :: ls')).titles =
      (List.intercalate [59, 32]
        ((l0 :: ls').map (fun l => loan_title books l.bookId))).take 27 ∧
    (mk_report_row books members mid (l0 :: ls')).loanDate = fmt_ts l0.borrowTs ∧
    (mk_report_row books members mid (l0 :: ls')).returnDate = fmt_ts l0.returnTs ∧
    (mk_report_row books members mid (l0 :: ls')).status =
      (if l0.returnTs ≠ 0 then StatusText.returned else StatusText.borrowed) := by
  refine ⟨?_, rfl, rfl, rfl, rfl⟩
  unfold report_rows
  rw [list_loans_true]
  rw [List.filter_map]
  have hpred : ((fun (q : Nat × ReportRow) => q.1 == mid) ∘
      (fun (p : Nat × List Loan) => (p.1, mk_report_row books members p.1 p.2))) =
      (fun (p : Nat × List Loan) => p.1 == mid) := rfl
  rw [hpred, group_loans_filter, hsplit]
  simp

/-- Claim C9 witness: the single grouped row of `c9State` carries both
titles (truncated) and the first loan's dates and status. -/
theorem report_first_loan_columns_witness :
    (report_rows c9State.books c9State.members c9State.loans).filter
        (fun p => p.1 == 1) =
      [(1, mk_report_row c9State.books c9State.members 1 c9State.loans)] ∧
    (mk_report_row c9State.books c9State.members 1 c9State.loans).loanDate =
      fmt_ts 10 ∧
    (mk_report_row c9State.books c9State.members 1 c9State.loans).returnDate =
      fmt_ts 0 ∧
    (mk_report_row c9State.books c9State.members 1 c9State.loans).status =
      StatusText.borrowed := by
  have h := report_first_loan_columns c9State.books c9State.members c9State.loans 1
    ⟨1, 1, 1, 10, 0, 1, 10⟩ [⟨2, 2, 1, 20, 0, 1, 20⟩] (by decide)
  refine ⟨?_, by decide, by decide, by decide⟩
  have h1 := h.1
  exact h1.trans (by decide)
